import Mathlib

/-!
Verification of the IndexedDB storage adapter (`src/adapters/IDB.js`) of
kinto.js: data model, index-assisted list queries (sorted merge-join
over the id index), the synchronous transaction executor, and the
`lastModified` metadata bookkeeping.

The stored state is embedded as a `DB` structure: the Collection object
store content (a list of records, keyed by `id` with unique key path) and
the `__meta__` store's single `lastModified` entry.  Asynchronous
request/cursor callbacks are flattened into pure functions from state to
(state, outcome) pairs: each public operation's promise resolution or
rejection is the returned outcome.
-/

namespace Kinto

/-- A stored record.  Per the data model a record has a mandatory unique
string `id`, the sync bookkeeping fields `_status` and `last_modified`,
and is otherwise opaque; `title` stands for the opaque payload. -/
structure Record where
  id : String
  _status : String := "synced"
  last_modified : Int := 0
  title : String := ""
deriving DecidableEq, Repr

/-- The persistent state of one adapter: the Collection store content and
the `__meta__` store's `{name: "lastModified", value}` entry.  `meta = none`
models an absent entry; `meta = some v` models a present entry whose
`value` is `v` (`v = none` models a stored JavaScript `null`). -/
structure DB where
  records : List Record
  meta : Option (Option Int) := none
deriving DecidableEq, Repr

/-- JavaScript values crossing the adapter boundary: `saveLastModified`'s
argument, a batch callback's return or thrown value.  `promise` stands for
any Promise instance (only its `instanceof Promise` test is observed). -/
inductive JSVal where
  | undef
  | str (s : String)
  | num (n : Int)
  | optRec (r : Option Record)
  | promise
deriving DecidableEq, Repr

/-- `JSVal.promise` is the only value for which `result instanceof Promise`
holds in the embedding. -/
def JSVal.isPromise : JSVal → Bool
  | .promise => true
  | _ => false

/-! ### JavaScript `parseInt(·, 10)` (used by `saveLastModified`, IDB.js:359) -/

/-- Numeric value of a string of decimal digits. -/
def digitsVal (cs : List Char) : Nat :=
  cs.foldl (fun a c => a * 10 + (c.toNat - 48)) 0

/-- `parseInt(s, 10)` on a string: skip leading whitespace, optional sign,
then the longest prefix of decimal digits; `none` models `NaN` (no digit). -/
def parseIntDec (s : String) : Option Int :=
  match s.toList.dropWhile Char.isWhitespace with
  | '-' :: rest =>
    let ds := rest.takeWhile Char.isDigit
    if ds.isEmpty then none else some (-(digitsVal ds : Int))
  | '+' :: rest =>
    let ds := rest.takeWhile Char.isDigit
    if ds.isEmpty then none else some (digitsVal ds : Int)
  | cs =>
    let ds := cs.takeWhile Char.isDigit
    if ds.isEmpty then none else some (digitsVal ds : Int)

/-- `parseInt(v, 10)` after JavaScript's string coercion of the argument:
an integer number round-trips through its decimal string; `undefined` and
object values stringify to non-numeric text, hence `NaN`. -/
def parseIntJS : JSVal → Option Int
  | .str s => parseIntDec s
  | .num n => some n
  | _ => none

/-- `parseInt(lastModified, 10) || null` (IDB.js:359): `NaN` and the falsy
integer `0` both fall back to `null`. -/
def coerceLastModified (p : Option Int) : Option Int :=
  match p with
  | none => none
  | some n => if n = 0 then none else some n

/-! ### Cursor handlers (IDB.js:13-54)

An IndexedDB cursor over a store or an index yields its entries in
ascending key order; `cursor.continue()` steps to the next entry and
`cursor.continue(k)` seeks to the first remaining entry with key ≥ `k`.
A cursor walk is embedded as a pure function over the ascending entry
list.  Keys of one index are homogeneously typed (`id` and `_status` are
strings, `last_modified` is an integer), so the walk is stated over any
linearly ordered key type. -/

/-- The `while (key > sortedValues[i]) ++i` loop of `cursorHandlers.in`
(IDB.js:38-45): skip target values that the cursor key has already
passed.  Returns the remaining targets (empty means `done` was called). -/
def dropPassedTargets {κ : Type} [LinearOrder κ] (key : κ) (ts : List κ) :
    List κ :=
  ts.dropWhile (fun t => t < key)

/-- `cursor.continue(target)` (IDB.js:50): advance the cursor past every
remaining entry whose key is below `target`. -/
def seekEntries {κ : Type} [LinearOrder κ] (target : κ)
    (es : List (κ × Record)) : List (κ × Record) :=
  es.dropWhile (fun e => e.1 < target)

/-- `cursorHandlers.in` (IDB.js:27-53): the sorted merge-join between the
cursor's ascending `(key, value)` entries and the caller's target values.
At each cursor position, targets the key has passed are skipped; if none
remain the scan stops; an exact key match records the value and steps the
cursor; otherwise the cursor seeks forward to the current target.  (With
an empty target list the source steps an index cursor to exhaustion via
`cursor.continue(undefined)` and returns `[]`; the embedding returns the
same `[]` without the idle cursor steps.) -/
def inScan {κ : Type} [LinearOrder κ] :
    List (κ × Record) → List κ → List Record
  | [], _ => []
  | e :: rest, targets =>
    match dropPassedTargets e.1 targets with
    | [] => []
    | t :: ts =>
      if e.1 = t then e.2 :: inScan rest (t :: ts)
      else inScan (seekEntries t rest) (t :: ts)
termination_by es _ => es.length
decreasing_by
  · simp
  · simp only [seekEntries, List.length_cons]
    exact Nat.lt_succ_of_le (List.dropWhile_sublist _).length_le

/-- `cursorHandlers.all` over a cursor restricted to
`IDBKeyRange.only(key)` (IDB.js:99-100): all entries whose key equals
`key`, in cursor order. -/
def eqScan {κ : Type} [DecidableEq κ] (es : List (κ × Record)) (key : κ) :
    List Record :=
  (es.filter (fun e => e.1 = key)).map Prod.snd

/-! ### Index cursor orders

The Collection store is keyed by `id` (unique); its secondary indexes are
`id` (unique), `_status` and `last_modified` (IDB.js:148-156).  A cursor
over the store or an index yields records ascending by the respective
key; `insertionSort` (a stable sort) realises that order on the embedded
record list. -/

/-- Ascending-`id` ordering relation on records. -/
def byIdLE : Record → Record → Prop := fun a b => a.id ≤ b.id

instance : DecidableRel byIdLE := fun a b =>
  inferInstanceAs (Decidable (a.id ≤ b.id))

instance : IsTotal Record byIdLE := ⟨fun a b => le_total a.id b.id⟩

instance : IsTrans Record byIdLE := ⟨fun _ _ _ h h' => le_trans h h'⟩

/-- The records in ascending primary-key (`id`) order: the order of a
full cursor walk over the Collection store (`cursorHandlers.all`,
IDB.js:86-87). -/
def byIdOrder (rs : List Record) : List Record :=
  List.insertionSort byIdLE rs

/-- The `(key, value)` entries yielded by a cursor over the `id` index. -/
def idIndexEntries (rs : List Record) : List (String × Record) :=
  (byIdOrder rs).map fun r => (r.id, r)

/-- The entries yielded by a cursor over the `_status` index. -/
def statusIndexEntries (rs : List Record) : List (String × Record) :=
  (List.insertionSort (fun a b : Record => a._status ≤ b._status) rs).map
    fun r => (r._status, r)

/-- The entries yielded by a cursor over the `last_modified` index. -/
def lmIndexEntries (rs : List Record) : List (Int × Record) :=
  (List.insertionSort
      (fun a b : Record => a.last_modified ≤ b.last_modified) rs).map
    fun r => (r.last_modified, r)

/-- JavaScript `[].slice.call(values).sort()` (IDB.js:28) on an array of
strings: the default comparator orders strings lexicographically. -/
def jsSortStrings (vs : List String) : List String :=
  List.insertionSort (· ≤ ·) vs

/-- JavaScript `[].slice.call(values).sort()` on an array of integers:
the default comparator stringifies its arguments, ordering a numeric
array by the decimal strings of its elements. -/
def jsSortInts (ns : List Int) : List Int :=
  List.insertionSort (fun a b => toString a ≤ toString b) ns

/-! ### Query engine (IDB.js:56-102, 323-349) -/

/-- A filter value: a scalar (equality) or an array ("IN" membership). -/
inductive FilterVal where
  | str (s : String)
  | num (n : Int)
  | arrS (ss : List String)
  | arrN (ns : List Int)
deriving DecidableEq, Repr

/-- A filter set: JavaScript object, embedded as a key-ordered
association list (`Object.keys` enumerates string keys in insertion
order). -/
abbrev Filters := List (String × FilterVal)

/-- `INDEXED_FIELDS` (IDB.js:6). -/
def INDEXED_FIELDS : List String := ["id", "_status", "last_modified"]

/-- `findIndexedField` (IDB.js:63-69): the first element of
`Object.keys(filters)` that is an indexed field — first in the *filter
set's* key order. -/
def findIndexedField (filters : Filters) : Option String :=
  ((filters.map Prod.fst).filter (fun f => f ∈ INDEXED_FIELDS)).head?

/-- Modelled from the spec: index selection as §4.3 words it — "compute
the intersection of its field names with the indexed field set
{`id`,`_status`,`last_modified`}; deterministically pick the first such
field in that fixed priority order".  Stated for comparison with the
source's `findIndexedField`. -/
def findIndexedFieldSpec (filters : Filters) : Option String :=
  (INDEXED_FIELDS.filter (fun f => f ∈ filters.map Prod.fst)).head?

/-- `createListRequest` (IDB.js:83-102): no indexed field means a full
store scan; an array value means the `cursorHandlers.in` merge-join over
the chosen index; a scalar value means an `IDBKeyRange.only` cursor.  A
range or comparison against the foreign key type of an index matches no
entry. -/
def createListRequest (rs : List Record) :
    Option String → Option FilterVal → List Record
  | none, _ => byIdOrder rs
  | some field, value =>
    if field = "last_modified" then
      match value with
      | some (.num n) => eqScan (lmIndexEntries rs) n
      | some (.arrN ns) => inScan (lmIndexEntries rs) (jsSortInts ns)
      | _ => []
    else
      let entries :=
        if field = "_status" then statusIndexEntries rs else idIndexEntries rs
      match value with
      | some (.str s) => eqScan entries s
      | some (.arrS ss) => inScan entries (jsSortStrings ss)
      | _ => []

/-- A record field as an IndexedDB key value. -/
inductive Scalar where
  | s (v : String)
  | n (v : Int)
deriving DecidableEq, Repr

/-- Field access on a record (`title` stands for the opaque payload). -/
def Record.field (r : Record) : String → Option Scalar
  | "id" => some (.s r.id)
  | "_status" => some (.s r._status)
  | "last_modified" => some (.n r.last_modified)
  | "title" => some (.s r.title)
  | _ => none

/-- Whether a record satisfies one residual filter: equality for a scalar
value, membership for an array value. -/
def matchesFilter (r : Record) : String × FilterVal → Bool
  | (f, .str s) => r.field f == some (.s s)
  | (f, .num n) => r.field f == some (.n n)
  | (f, .arrS ss) =>
    match r.field f with
    | some (.s v) => ss.contains v
    | _ => false
  | (f, .arrN ns) =>
    match r.field f with
    | some (.n v) => ns.contains v
    | _ => false

/-- Ordering on optional field values used by the post-sort stage
(absent values first, then integers, then strings). -/
def scalarLE : Option Scalar → Option Scalar → Bool
  | none, _ => true
  | some _, none => false
  | some (.n a), some (.n b) => a ≤ b
  | some (.n _), some (.s _) => true
  | some (.s _), some (.n _) => false
  | some (.s a), some (.s b) => a ≤ b

/-- Stable sort of the candidate set by an ordering spec: `"field"`
ascending, `"-field"` descending; no spec keeps the candidate order. -/
def sortByOrder : Option String → List Record → List Record
  | none, rs => rs
  | some o, rs =>
    if o.startsWith "-" then
      List.insertionSort
        (fun a b => scalarLE (b.field (o.drop 1)) (a.field (o.drop 1)) = true) rs
    else
      List.insertionSort
        (fun a b => scalarLE (a.field o) (b.field o) = true) rs

/-- Modelled from the spec: `reduceRecords` is imported from
`src/utils.js`, which is not among the provided sources.  Per §4.3 it is
a pure reducer that "applies residual equality/range filters and a
stable sort (ties broken by original retrieval order) over the candidate
set": `reduceRecords(filters, order, records) -> records`. -/
def reduceRecords (filters : Filters) (order : Option String)
    (records : List Record) : List Record :=
  sortByOrder order (records.filter (fun r => filters.all (matchesFilter r)))

namespace IDB

/-- `IDB#list` (IDB.js:323-349): pick the index via `findIndexedField`,
run `createListRequest`, then hand the remaining filters and the order to
`reduceRecords`.  `delete remainingFilters[indexField]` with an
`undefined` index deletes the literal property name `"undefined"`. -/
def list (db : DB) (filters : Filters) (order : Option String) :
    List Record :=
  let indexField := findIndexedField filters
  let value :=
    indexField.bind fun f => (filters.find? (fun kv => kv.1 = f)).map Prod.snd
  let results := createListRequest db.records indexField value
  let delKey := indexField.getD "undefined"
  let remaining := filters.filter (fun kv => kv.1 ≠ delKey)
  reduceRecords remaining order results

/-- `IDB#get` (IDB.js:306-315): `store.get(id)` — the stored record with
primary key `id`, or `undefined`. -/
def get (db : DB) (id : String) : Option Record :=
  db.records.find? (fun r => r.id = id)

/-- `IDB#clear` (IDB.js:214-223): `store.clear()` on the Collection store
inside its own write transaction; the `__meta__` store is not touched. -/
def clear (db : DB) : DB :=
  { db with records := [] }

/-- `IDB#saveLastModified` (IDB.js:358-368): coerce the input with
`parseInt(·, 10) || null`, `put` `{name: "lastModified", value}` into the
`__meta__` store, and resolve with the coerced value. -/
def saveLastModified (db : DB) (lastModified : JSVal) : DB × Option Int :=
  let value := coerceLastModified (parseIntJS lastModified)
  ({ db with meta := some value }, value)

/-- `IDB#getLastModified` (IDB.js:376-387): read the `"lastModified"`
entry and resolve `request.result && request.result.value || null` — an
absent entry, a stored `null` and a stored `0` all resolve `null`. -/
def getLastModified (db : DB) : Option Int :=
  match db.meta with
  | none => none
  | some none => none
  | some (some v) => if v = 0 then none else some v

end IDB

/-! ### Transaction executor (IDB.js:255-297, 420-438) -/

/-- A batch callback, embedded as a program over the four synchronous
operations of the transaction proxy (`transactionProxy`, IDB.js:420-438)
ending in the callback's outcome: returning a value or throwing one. -/
inductive BatchProg where
  | ret (v : JSVal)
  | throw (e : JSVal)
  | create (r : Record) (k : BatchProg)
  | update (r : Record) (k : BatchProg)
  | delete (id : String) (k : BatchProg)
  | get (id : String) (k : Option Record → BatchProg)

/-- The preload mapping `acc[record.id] = record` built at IDB.js:274-277
and read by the proxy's `get` (IDB.js:434-436): the last record with the
given id wins; an id that was never stored yields `undefined`. -/
def preloadedGet (preloaded : List Record) (id : String) : Option Record :=
  preloaded.foldl (fun acc r => if r.id = id then some r else acc) none

/-- `store.put(record)` upsert semantics (IDB.js:427): replace the record
with the same primary key, else insert. -/
def putRecord (rs : List Record) (r : Record) : List Record :=
  if rs.any (fun x => x.id = r.id) then
    rs.map (fun x => if x.id = r.id then r else x)
  else rs ++ [r]

/-- `store.delete(id)` (IDB.js:431): remove the record with primary key
`id`; a no-op when absent. -/
def deleteRecord (rs : List Record) (id : String) : List Record :=
  rs.filter (fun x => x.id ≠ id)

/-- How the batch callback finished: returned a value or threw one. -/
inductive BatchOutcome where
  | ret (v : JSVal)
  | thrown (e : JSVal)
deriving DecidableEq, Repr

/-- Run the batch callback against the transaction proxy, threading the
tentative store content and the first failed request.  `store.add` on an
existing key (IDB.js:423) raises `ConstraintError` asynchronously: the
synchronous callback keeps running and the engine aborts the transaction
only when the error event fires, so the failure is recorded and execution
continues.  `get` reads only the preloaded snapshot (IDB.js:434-436),
never the store. -/
def runBatch : BatchProg → List Record → List Record → Option String →
    List Record × Option String × BatchOutcome
  | .ret v, _, s, f => (s, f, .ret v)
  | .throw e, _, s, f => (s, f, .thrown e)
  | .create r k, pre, s, f =>
    if s.any (fun x => x.id = r.id) then
      runBatch k pre s (f <|> some "ConstraintError")
    else runBatch k pre (s ++ [r]) f
  | .update r k, pre, s, f => runBatch k pre (putRecord s r) f
  | .delete id k, pre, s, f => runBatch k pre (deleteRecord s id) f
  | .get id k, pre, s, f => runBatch (k (preloadedGet pre id)) pre s f

/-- What a rejected adapter promise carries: the callback's thrown value
(IDB.js:286) or an `Error` created by the adapter (IDB.js:290, 293). -/
inductive RejectVal where
  | thrownVal (v : JSVal)
  | errorMsg (m : String)
deriving DecidableEq, Repr

/-- The settled outcome of an adapter promise. -/
inductive ExecResult where
  | resolved (v : JSVal)
  | rejected (e : RejectVal)
deriving DecidableEq, Repr

namespace IDB

/-- `IDB#execute` (IDB.js:255-297): preload the requested ids through the
`cursorHandlers.in` merge-join over the `id` index (IDB.js:272), run the
callback synchronously against the transaction proxy, and settle.  A
throwing callback aborts the transaction (its writes are discarded,
IDB.js:285) and the promise rejects with the thrown value.  A callback
returning a Promise rejects the promise (IDB.js:288-291) but does *not*
abort, so the transaction still commits (unless a request failed, which
aborts it).  Otherwise the promise resolves with the callback's return
value once the transaction completes, or rejects with the engine's error
if a request failed (IDB.js:293). -/
def execute (db : DB) (prog : BatchProg) (preload : List String) :
    DB × ExecResult :=
  let pre := inScan (idIndexEntries db.records) (jsSortStrings preload)
  match runBatch prog pre db.records none with
  | (_, _, .thrown e) => (db, .rejected (.thrownVal e))
  | (s', f, .ret v) =>
    if v.isPromise then
      ((match f with
        | some _ => db
        | none => { db with records := s' }),
       .rejected
         (.errorMsg "execute() callback should not return a Promise."))
    else
      match f with
      | some msg => (db, .rejected (.errorMsg msg))
      | none => ({ db with records := s' }, .resolved v)

end IDB

/-- The batch `records.forEach(record => transaction.update(record))` run
by `loadDump` (IDB.js:397); `forEach` returns `undefined`. -/
def updateAllProg : List Record → BatchProg
  | [] => .ret .undef
  | r :: rs => .update r (updateAllProg rs)

/-- JavaScript relational comparison with a possibly-`null` operand
(IDB.js:402 compares against the resolved `getLastModified`): `null`
coerces to `0`. -/
def jsNum (o : Option Int) : Int := o.getD 0

/-- `Math.max(...records.map(r => r.last_modified))` (IDB.js:401); `none`
models the `-Infinity` of an empty spread, which no stored value is ever
below. -/
def maxLastModified : List Record → Option Int
  | [] => none
  | r :: rs =>
    match maxLastModified rs with
    | none => some r.last_modified
    | some m => some (max r.last_modified m)

/-- `err.message` as read by `_handleError` (IDB.js:126): an adapter
`Error` carries its message; a thrown non-`Error` value has no `message`
property, which stringifies as `"undefined"`. -/
def rejectMessage : RejectVal → String
  | .errorMsg m => m
  | .thrownVal _ => "undefined"

namespace IDB

/-- `IDB#loadDump` (IDB.js:395-408): upsert every given record in one
`execute` batch, then read the stored `lastModified` and call
`saveLastModified` with the maximum `last_modified` of the given records
only when that maximum is strictly greater than the stored value
(`lastModified > previousLastModified`, `null` coercing to `0`).
Resolves with the given records; any failure is wrapped by
`_handleError("loadDump")`. -/
def loadDump (db : DB) (records : List Record) :
    DB × Except RejectVal (List Record) :=
  match execute db (updateAllProg records) [] with
  | (db1, .rejected e) =>
    (db1, .error (.errorMsg ("loadDump() " ++ rejectMessage e)))
  | (db1, .resolved _) =>
    let prev := getLastModified db1
    match maxLastModified records with
    | none => (db1, .ok records)
    | some m =>
      if m > jsNum prev then ((saveLastModified db1 (.num m)).1, .ok records)
      else (db1, .ok records)

end IDB

/-! ### Error propagation (IDB.js:124-130 and the per-operation handlers)

Each public operation's rejection on an underlying engine error, as a
function from the engine's error value to the rejected value. -/

/-- A JavaScript `Error`-like value (engine `DOMException` or adapter
`Error`); only `name` and `message` are observed. -/
structure JSErr where
  name : String
  message : String
deriving DecidableEq, Repr

/-- `IDB#_handleError` (IDB.js:124-130): rethrow as a new `Error` whose
message prefixes the failing operation's name (the stack copy is not
modeled). -/
def handleError (method : String) (err : JSErr) : JSErr :=
  { name := "Error", message := method ++ "() " ++ err.message }

/-- `String(e)` for an `Error`-like value. -/
def errString (e : JSErr) : String := e.name ++ ": " ++ e.message

/-- `new Error(event.target.error)` (IDB.js:219, 311, 336): a fresh
`Error` whose message is the engine error's string form. -/
def jsNewErrorOf (e : JSErr) : JSErr :=
  { name := "Error", message := errString e }

namespace IDB

/-- `IDB#open` rejection (IDB.js:164): `reject(event.target.error)` — the
raw engine error, no wrapper. -/
def openOnError (e : JSErr) : JSErr := e

/-- `IDB#clear` rejection (IDB.js:219, 222): `new Error(...)` then
`.catch(this._handleError("clear"))`. -/
def clearOnError (e : JSErr) : JSErr := handleError "clear" (jsNewErrorOf e)

/-- `IDB#get` rejection (IDB.js:311, 314): `new Error(...)` then
`.catch(this._handleError("get"))`. -/
def getOnError (e : JSErr) : JSErr := handleError "get" (jsNewErrorOf e)

/-- `IDB#list` rejection (IDB.js:336, 348): `new Error(...)` then
`.catch(this._handleError("list"))`. -/
def listOnError (e : JSErr) : JSErr := handleError "list" (jsNewErrorOf e)

/-- `IDB#execute` rejection on an engine transaction error (IDB.js:293):
`new Error(event.target.error)` — no operation-name wrapper. -/
def executeOnError (e : JSErr) : JSErr := jsNewErrorOf e

/-- `IDB#saveLastModified` rejection (IDB.js:364):
`reject(event.target.error)` — the raw engine error, no `.catch`. -/
def saveLastModifiedOnError (e : JSErr) : JSErr := e

/-- `IDB#getLastModified` rejection (IDB.js:381):
`reject(event.target.error)` — the raw engine error, no `.catch`. -/
def getLastModifiedOnError (e : JSErr) : JSErr := e

/-- `IDB#loadDump` rejection (IDB.js:407): whatever error reached it,
wrapped by `.catch(this._handleError("loadDump"))`. -/
def loadDumpOnError (e : JSErr) : JSErr := handleError "loadDump" e


end IDB

/-- One write operation issued through the transaction proxy. -/
inductive WriteOp where
  | create (r : Record)
  | update (r : Record)
  | delete (id : String)
deriving DecidableEq, Repr

/-- Splice a sequence of proxy write operations in front of a batch
program: the shape of a callback that mutates and then finishes. -/
def progOfOps : List WriteOp → BatchProg → BatchProg
  | [], p => p
  | .create r :: ops, p => .create r (progOfOps ops p)
  | .update r :: ops, p => .update r (progOfOps ops p)
  | .delete i :: ops, p => .delete i (progOfOps ops p)

/-! ## Theorems -/

/-- A `dropWhile` that returns a cons starts with an element failing the
predicate. -/
theorem dropWhile_cons_head_false {α : Type} {p : α → Bool} :
    ∀ {l : List α} {t : α} {tl : List α}, l.dropWhile p = t :: tl →
      p t = false := by
  intro l
  induction l with
  | nil => intro t tl h; simp [List.dropWhile] at h
  | cons a l ih =>
    intro t tl h
    rw [List.dropWhile_cons] at h
    by_cases hp : p a
    · rw [if_pos hp] at h; exact ih h
    · rw [if_neg hp] at h
      cases h
      simpa using hp

/-- Merge-join correctness: over entries in ascending key order and
targets in ascending order, `cursorHandlers.in` collects exactly the
values whose key is among the targets, in entry order. -/
theorem inScan_eq_filter {κ : Type} [LinearOrder κ]
    (es : List (κ × Record)) (ts : List κ)
    (he : es.Pairwise (fun a b => a.1 ≤ b.1))
    (ht : ts.Pairwise (· ≤ ·)) :
    inScan es ts = (es.filter (fun e => decide (e.1 ∈ ts))).map Prod.snd := by
  match es, he with
  | [], _ => simp [inScan]
  | e :: rest, he =>
    have hepair := List.pairwise_cons.mp he
    have heHead : ∀ y ∈ rest, e.1 ≤ y.1 := hepair.1
    have heRest : rest.Pairwise (fun a b => a.1 ≤ b.1) := hepair.2
    cases h₁ : dropPassedTargets e.1 ts with
    | nil =>
      have hall : ∀ t ∈ ts, t < e.1 := by
        intro t htmem
        simpa using List.dropWhile_eq_nil_iff.mp h₁ t htmem
      have hfil : (e :: rest).filter (fun x => decide (x.1 ∈ ts)) = [] := by
        rw [List.filter_eq_nil_iff]
        intro a ha hmem
        have hents : e.1 ≤ a.1 := by
          rcases List.mem_cons.mp ha with rfl | h
          · exact le_refl _
          · exact heHead a h
        have hlt : a.1 < e.1 := hall _ (by simpa using hmem)
        exact absurd (lt_of_le_of_lt hents hlt) (lt_irrefl _)
      rw [inScan, h₁, hfil]
      rfl
    | cons t tl =>
      have hdecomp : ts.takeWhile (fun x => decide (x < e.1)) ++ t :: tl
          = ts := by
        rw [← h₁]; exact List.takeWhile_append_dropWhile _ _
      have hdropped :
          ∀ x ∈ ts.takeWhile (fun x => decide (x < e.1)), x < e.1 := by
        intro x hx; simpa using List.mem_takeWhile_imp hx
      have hket : e.1 ≤ t := by
        have := dropWhile_cons_head_false (p := fun x => decide (x < e.1)) h₁
        simpa using this
      have htsub : (t :: tl).Pairwise (· ≤ ·) := by
        have hsub : List.Sublist (t :: tl) ts := by
          rw [← h₁]; exact List.dropWhile_sublist _
        exact ht.sublist hsub
      have htlb : ∀ x ∈ t :: tl, t ≤ x := by
        intro x hx
        rcases List.mem_cons.mp hx with rfl | h
        · exact le_refl _
        · exact (List.pairwise_cons.mp htsub).1 x h
      have hmemiff : ∀ k : κ, e.1 ≤ k → (k ∈ ts ↔ k ∈ t :: tl) := by
        intro k hk
        constructor
        · intro hmem
          rw [← hdecomp] at hmem
          rcases List.mem_append.mp hmem with h | h
          · exact absurd (hdropped _ h) (not_lt.mpr hk)
          · exact h
        · intro hmem; rw [← hdecomp]; exact List.mem_append.mpr (Or.inr hmem)
      by_cases heq : e.1 = t
      · have ih := inScan_eq_filter rest (t :: tl) heRest htsub
        rw [inScan, h₁]
        dsimp only
        rw [if_pos heq, ih]
        have hein : e.1 ∈ ts :=
          (hmemiff e.1 le_rfl).mpr (heq ▸ List.mem_cons_self t tl)
        rw [List.filter_cons_of_pos (by simpa using hein), List.map_cons]
        congr 2
        apply List.filter_congr
        intro y hy
        have hpe : (y.1 ∈ ts) = (y.1 ∈ t :: tl) :=
          propext (hmemiff y.1 (heHead y hy))
        simp [hpe]
      · have hlt : e.1 < t := lt_of_le_of_ne hket heq
        have hseek_sub : List.Sublist (seekEntries t rest) rest :=
          List.dropWhile_sublist _
        have ih := inScan_eq_filter (seekEntries t rest) (t :: tl)
          (heRest.sublist hseek_sub) htsub
        rw [inScan, h₁]
        dsimp only
        rw [if_neg heq, ih]
        have hhead : e.1 ∉ ts := by
          intro hmem
          rw [← hdecomp] at hmem
          rcases List.mem_append.mp hmem with h | h
          · exact absurd (hdropped _ h) (lt_irrefl _)
          · exact absurd (htlb _ h) (not_le.mpr hlt)
        have hskip_decomp :
            rest.takeWhile (fun y => decide (y.1 < t)) ++ seekEntries t rest
              = rest := List.takeWhile_append_dropWhile _ _
        have hR : rest.filter (fun y => decide (y.1 ∈ ts))
            = (seekEntries t rest).filter
                (fun y => decide (y.1 ∈ t :: tl)) := by
          conv_lhs => rw [← hskip_decomp]
          rw [List.filter_append]
          have h1 : (rest.takeWhile (fun y => decide (y.1 < t))).filter
              (fun y => decide (y.1 ∈ ts)) = [] := by
            rw [List.filter_eq_nil_iff]
            intro a ha hmem
            have halt : a.1 < t := by simpa using List.mem_takeWhile_imp ha
            have har : a ∈ rest := (List.takeWhile_sublist _).subset ha
            have hmem' : a.1 ∈ ts := by simpa using hmem
            rw [← hdecomp] at hmem'
            rcases List.mem_append.mp hmem' with h | h
            · exact absurd (hdropped _ h) (not_lt.mpr (heHead a har))
            · exact absurd (htlb _ h) (not_le.mpr halt)
          rw [h1, List.nil_append]
          apply List.filter_congr
          intro y hy
          have hyr : y ∈ rest := hseek_sub.subset hy
          have hpe : (y.1 ∈ ts) = (y.1 ∈ t :: tl) :=
            propext (hmemiff y.1 (heHead y hyr))
          simp [hpe]
        rw [List.filter_cons_of_neg (by simpa using hhead), hR]
termination_by es.length
decreasing_by
  all_goals simp only [seekEntries, List.length_cons]
  all_goals
    first
      | exact Nat.lt_succ_self _
      | exact Nat.lt_succ_of_le (List.dropWhile_sublist _).length_le

/-- The `id`-index entries are in ascending key order. -/
theorem idIndexEntries_pairwise (rs : List Record) :
    (idIndexEntries rs).Pairwise (fun a b => a.1 ≤ b.1) := by
  rw [idIndexEntries, List.pairwise_map]
  exact List.sorted_insertionSort byIdLE rs

/-- The JavaScript-sorted target strings are in ascending order. -/
theorem jsSortStrings_pairwise (vs : List String) :
    (jsSortStrings vs).Pairwise (· ≤ ·) :=
  List.sorted_insertionSort _ vs

/-- `list` with the single filter `{id: V}` is exactly the merge-join of
the `id`-index cursor against the sorted `V` (the residual filter set is
empty and no ordering was requested). -/
theorem list_id_in_eq (db : DB) (V : List String) :
    IDB.list db [("id", FilterVal.arrS V)] none
      = inScan (idIndexEntries db.records) (jsSortStrings V) := by
  simp [IDB.list, findIndexedField, INDEXED_FIELDS, createListRequest,
        reduceRecords, sortByOrder]

/-- The merge-join over the `id` index keeps exactly the records whose id
is among the requested values. -/
theorem inScan_id_eq_filter (rs : List Record) (V : List String) :
    inScan (idIndexEntries rs) (jsSortStrings V)
      = (byIdOrder rs).filter (fun r => decide (r.id ∈ V)) := by
  rw [inScan_eq_filter _ _ (idIndexEntries_pairwise rs)
        (jsSortStrings_pairwise V),
      idIndexEntries, List.filter_map, List.map_map]
  have hmap : (Prod.snd ∘ fun r : Record => (r.id, r)) = id := rfl
  rw [hmap, List.map_id]
  apply List.filter_congr
  intro r _
  simp [Function.comp, jsSortStrings]

/-- C1: for every list of ids `V` and stored record set, `list` with the
filter `{id: V}` (the "IN" query, a sorted merge-join over the `id`
index) resolves exactly the records whose `id` is in `V`; ids in `V`
absent from the store are silently skipped, and the result does not
depend on the order of `V`. -/
theorem c1_list_in_query (db : DB) (V : List String) :
    (∀ r : Record, r ∈ IDB.list db [("id", FilterVal.arrS V)] none ↔
        r ∈ db.records ∧ r.id ∈ V) ∧
    (∀ V' : List String, V.Perm V' →
        IDB.list db [("id", FilterVal.arrS V')] none
          = IDB.list db [("id", FilterVal.arrS V)] none) := by
  constructor
  · intro r
    rw [list_id_in_eq, inScan_id_eq_filter, List.mem_filter]
    simp [byIdOrder]
  · intro V' hperm
    rw [list_id_in_eq, list_id_in_eq, inScan_id_eq_filter,
        inScan_id_eq_filter]
    apply List.filter_congr
    intro r _
    simp [hperm.mem_iff]

/-- C1 witness: Scenario B — store with ids 1..5, filter
`{id: [3,5,9]}`; membership holds for the stored ids 3 and 5, id 9 is
skipped, and permuting the filter values leaves the result unchanged. -/
theorem c1_list_in_query_witness :
    (({ id := "3" } : Record) ∈
        IDB.list
          { records := [{ id := "1" }, { id := "2" }, { id := "3" },
                        { id := "4" }, { id := "5" }] }
          [("id", FilterVal.arrS ["3", "5", "9"])] none) ∧
    IDB.list
        { records := [{ id := "1" }, { id := "2" }, { id := "3" },
                      { id := "4" }, { id := "5" }] }
        [("id", FilterVal.arrS ["9", "5", "3"])] none
      = IDB.list
          { records := [{ id := "1" }, { id := "2" }, { id := "3" },
                        { id := "4" }, { id := "5" }] }
          [("id", FilterVal.arrS ["3", "5", "9"])] none := by
  have h := c1_list_in_query
    { records := [{ id := "1" }, { id := "2" }, { id := "3" },
                  { id := "4" }, { id := "5" }] }
    ["3", "5", "9"]
  exact ⟨(h.1 { id := "3" }).mpr (by constructor <;> decide),
         h.2 ["9", "5", "3"] (by decide)⟩

/-- The head of a filtered list is the first element satisfying the
predicate. -/
theorem filter_head?_eq_find? {α : Type} (p : α → Bool) (l : List α) :
    (l.filter p).head? = l.find? p := by
  induction l with
  | nil => rfl
  | cons a l ih =>
    by_cases h : p a <;> simp [List.filter_cons, List.find?_cons, h, ih]

/-- C2 counterexample: a filter set naming `_status` before `id` uses the
`_status` index, not the `id` index: the source's `findIndexedField`
follows the filter set's own key order, while the spec's
priority-ordered intersection would pick `id`. -/
theorem c2_counterexample_status_before_id :
    findIndexedField
        [("_status", FilterVal.str "created"), ("id", FilterVal.str "x")]
      = some "_status" ∧
    findIndexedFieldSpec
        [("_status", FilterVal.str "created"), ("id", FilterVal.str "x")]
      = some "id" ∧
    findIndexedField
        [("_status", FilterVal.str "created"), ("id", FilterVal.str "x")]
      ≠ findIndexedFieldSpec
        [("_status", FilterVal.str "created"), ("id", FilterVal.str "x")] := by
  refine ⟨?_, ?_, ?_⟩ <;> decide

/-- C2 (amended): the query engine uses at most one index per query, and
picks the *first field in the filter set's own key-enumeration order*
that belongs to {`id`, `_status`, `last_modified`} — not the first in
that fixed priority order; any picked field is an indexed field named by
the filter set. -/
theorem c2_first_filter_key_indexed (filters : Filters) :
    findIndexedField filters
      = (filters.map Prod.fst).find? (fun f => decide (f ∈ INDEXED_FIELDS)) ∧
    ∀ f, findIndexedField filters = some f →
      f ∈ INDEXED_FIELDS ∧ f ∈ filters.map Prod.fst := by
  refine ⟨filter_head?_eq_find? _ _, ?_⟩
  intro f hf
  rw [findIndexedField] at hf
  have hmem := List.mem_of_mem_head? hf
  rw [List.mem_filter] at hmem
  exact ⟨by simpa using hmem.2, hmem.1⟩

/-- C2 witness: on a concrete filter set the selected field is the first
indexed one in filter-key order and is indexed. -/
theorem c2_first_filter_key_indexed_witness :
    findIndexedField
        [("title", FilterVal.str "a"), ("last_modified", FilterVal.num 1)]
      = some "last_modified" ∧
    "last_modified" ∈ INDEXED_FIELDS := by
  have h := c2_first_filter_key_indexed
    [("title", FilterVal.str "a"), ("last_modified", FilterVal.num 1)]
  exact ⟨by decide, (h.2 "last_modified" (by decide)).1⟩

/-- C9: `clear()` empties the Collection store entirely and leaves the
Metadata store untouched: afterwards `list` with an empty filter set
resolves `[]`, and `getLastModified()` still resolves its prior value. -/
theorem c9_clear_records_only (db : DB) (h : db.records ≠ []) :
    (IDB.clear db).records = [] ∧
    (IDB.clear db).meta = db.meta ∧
    IDB.list (IDB.clear db) [] none = [] ∧
    IDB.getLastModified (IDB.clear db) = IDB.getLastModified db := by
  refine ⟨rfl, rfl, ?_, rfl⟩
  simp [IDB.list, IDB.clear, findIndexedField, createListRequest, byIdOrder,
        reduceRecords, sortByOrder]

/-- C9 witness: clearing a concrete non-empty store with a stored
`lastModified` of 5. -/
theorem c9_clear_records_only_witness :
    ({ records := [{ id := "1" }], meta := some (some 5) } : DB).records
      ≠ [] ∧
    IDB.list
        (IDB.clear { records := [{ id := "1" }], meta := some (some 5) })
        [] none = [] ∧
    IDB.getLastModified
        (IDB.clear { records := [{ id := "1" }], meta := some (some 5) })
      = some 5 := by
  have h := c9_clear_records_only
    { records := [{ id := "1" }], meta := some (some 5) } (by decide)
  exact ⟨by decide, h.2.2.1, h.2.2.2.trans (by decide)⟩

/-- C6: `saveLastModified` coerces its input with `parseInt(·, 10) || null`
(defaulting to `null` on non-numeric input), writes the
`{name: "lastModified", value}` entry to the metadata store, and resolves
with the coerced value; `saveLastModified("42")` then `getLastModified()`
resolves `42`, and `saveLastModified("notanumber")` then `getLastModified()`
resolves `null`. -/
theorem c6_saveLastModified_coercion (db : DB) (v : JSVal) :
    (IDB.saveLastModified db v).2 = coerceLastModified (parseIntJS v) ∧
    (IDB.saveLastModified db v).1.meta
      = some (coerceLastModified (parseIntJS v)) ∧
    (IDB.saveLastModified db v).1.records = db.records ∧
    IDB.getLastModified (IDB.saveLastModified db (.str "42")).1 = some 42 ∧
    IDB.getLastModified (IDB.saveLastModified db (.str "notanumber")).1
      = none :=
  ⟨rfl, rfl, rfl, rfl, rfl⟩

/-- C10: the stored `lastModified` value `0` is indistinguishable from an
absent entry at the public interface: `saveLastModified(0)` stores and
resolves `null` (the integer coercion `parseInt(v, 10) || null` treats the
falsy parse result `0` as `null`), and `getLastModified()` resolves `null`
both when the stored entry's value is `0` and when the entry is absent. -/
theorem c10_lastModified_zero_is_null (db : DB) :
    (IDB.saveLastModified db (.num 0)).2 = none ∧
    (IDB.saveLastModified db (.num 0)).1.meta = some none ∧
    IDB.getLastModified (IDB.saveLastModified db (.num 0)).1 = none ∧
    IDB.getLastModified { db with meta := some (some 0) } = none ∧
    IDB.getLastModified { db with meta := none } = none :=
  ⟨rfl, rfl, rfl, rfl, rfl⟩

/-- `cursorHandlers.in` with no target values collects nothing. -/
theorem inScan_nil_targets {κ : Type} [LinearOrder κ]
    (es : List (κ × Record)) : inScan es [] = [] := by
  cases es with
  | nil => simp [inScan]
  | cons e rest =>
    rw [inScan]
    simp [dropPassedTargets]

/-- An empty preload list preloads no record. -/
theorem preload_nil (rs : List Record) :
    inScan (idIndexEntries rs) (jsSortStrings []) = [] := by
  have h : jsSortStrings [] = [] := rfl
  rw [h, inScan_nil_targets]

/-- C4: a batch callback that throws (after issuing any operations)
aborts the transaction: `execute` rejects with the thrown value, the
state is unchanged, and none of the batch's mutations are visible to a
subsequent `list` or `get`. -/
theorem c4_execute_atomic_on_throw (db : DB) (prog : BatchProg)
    (preload : List String) (s' : List Record) (f : Option String)
    (e : JSVal)
    (h : runBatch prog
          (inScan (idIndexEntries db.records) (jsSortStrings preload))
          db.records none = (s', f, .thrown e)) :
    IDB.execute db prog preload = (db, .rejected (.thrownVal e)) ∧
    (∀ id, IDB.get (IDB.execute db prog preload).1 id = IDB.get db id) ∧
    (∀ fl ord, IDB.list (IDB.execute db prog preload).1 fl ord
        = IDB.list db fl ord) := by
  have hex : IDB.execute db prog preload
      = (db, .rejected (.thrownVal e)) := by
    simp only [IDB.execute]
    rw [h]
  exact ⟨hex, fun id => by rw [hex], fun fl ord => by rw [hex]⟩

/-- C4 witness: a concrete callback creates a record and then throws;
`execute` rejects with the thrown string and the created record is not
visible to `get`. -/
theorem c4_execute_atomic_on_throw_witness :
    IDB.execute { records := [{ id := "a" }] }
        (.create { id := "b" } (.throw (.str "boom"))) []
      = ({ records := [{ id := "a" }] },
         .rejected (.thrownVal (.str "boom"))) ∧
    IDB.get (IDB.execute { records := [{ id := "a" }] }
        (.create { id := "b" } (.throw (.str "boom"))) []).1 "b" = none := by
  have h := c4_execute_atomic_on_throw { records := [{ id := "a" }] }
    (.create { id := "b" } (.throw (.str "boom"))) []
    [{ id := "a" }, { id := "b" }] none (.str "boom")
    (by rw [preload_nil]; rfl)
  exact ⟨h.1, (h.2.1 "b").trans (by decide)⟩

/-- C7 (amended): a batch callback whose return value is a Promise makes
`execute` reject with a plain `Error` whose message is "execute()
callback should not return a Promise." (not "… a pending value", and not
an `InvalidUsageError`); the transaction is *not* aborted, so when no
request failed the callback's mutations still commit. -/
theorem c7_promise_return_rejects (db : DB) (prog : BatchProg)
    (preload : List String) (s' : List Record) (f : Option String)
    (v : JSVal)
    (h : runBatch prog
          (inScan (idIndexEntries db.records) (jsSortStrings preload))
          db.records none = (s', f, .ret v))
    (hp : v.isPromise = true) :
    (IDB.execute db prog preload).2
      = .rejected
          (.errorMsg "execute() callback should not return a Promise.") ∧
    (f = none →
      (IDB.execute db prog preload).1 = { db with records := s' }) := by
  cases f with
  | some msg =>
    have hex : IDB.execute db prog preload
        = (db, .rejected
            (.errorMsg "execute() callback should not return a Promise.")) := by
      simp only [IDB.execute]
      rw [h]
      simp [hp]
    exact ⟨by rw [hex], fun hf => Option.noConfusion hf⟩
  | none =>
    have hex : IDB.execute db prog preload
        = ({ db with records := s' }, .rejected
            (.errorMsg "execute() callback should not return a Promise.")) := by
      simp only [IDB.execute]
      rw [h]
      simp [hp]
    exact ⟨by rw [hex], fun _ => by rw [hex]⟩

/-- C7 witness: a concrete callback that creates a record and returns a
Promise; the rejection carries the Promise message and the creation
commits. -/
theorem c7_promise_return_rejects_witness :
    (IDB.execute { records := [] }
        (.create { id := "b" } (.ret .promise)) []).2
      = .rejected
          (.errorMsg "execute() callback should not return a Promise.") ∧
    (IDB.execute { records := [] }
        (.create { id := "b" } (.ret .promise)) []).1
      = { records := [{ id := "b" }] } := by
  have h := c7_promise_return_rejects { records := [] }
    (.create { id := "b" } (.ret .promise)) [] [{ id := "b" }] none .promise
    (by rw [preload_nil]; rfl) rfl
  exact ⟨h.1, h.2 rfl⟩

/-- C7 counterexample: on that same concrete callback the rejection
message is "execute() callback should not return a Promise." — not the
claimed "execute() callback should not return a pending value" — and the
mutation *is* committed, so the operation does not fail "rather than
committing". -/
theorem c7_counterexample_message_and_commit :
    (IDB.execute { records := [] }
        (.create { id := "b" } (.ret .promise)) []).2
      = .rejected
          (.errorMsg "execute() callback should not return a Promise.") ∧
    "execute() callback should not return a Promise."
      ≠ "execute() callback should not return a pending value" ∧
    (IDB.execute { records := [] }
        (.create { id := "b" } (.ret .promise)) []).1.records
      = [{ id := "b" }] := by
  have hpre := preload_nil ([] : List Record)
  refine ⟨?_, by decide, ?_⟩ <;>
    · simp only [IDB.execute, hpre]
      rfl

/-- Write operations spliced in front of a program only change the
threaded tentative store and failure flag: the spliced program then runs
from those. -/
theorem runBatch_progOfOps (ops : List WriteOp) (p : BatchProg)
    (pre : List Record) :
    ∀ (s : List Record) (f : Option String),
    ∃ s₂ f₂, runBatch (progOfOps ops p) pre s f = runBatch p pre s₂ f₂ := by
  induction ops with
  | nil => exact fun s f => ⟨s, f, rfl⟩
  | cons op ops ih =>
    intro s f
    cases op with
    | create r =>
      rw [progOfOps, runBatch]
      by_cases hc : s.any (fun x => x.id = r.id)
      · rw [if_pos hc]; exact ih _ _
      · rw [if_neg hc]; exact ih _ _
    | update r =>
      rw [progOfOps, runBatch]
      exact ih _ _
    | delete i =>
      rw [progOfOps, runBatch]
      exact ih _ _

/-- A last-wins fold over a record list is `find?` on its reverse. -/
theorem foldl_preload_eq_find? (l : List Record) (id : String)
    (acc : Option Record) :
    l.foldl (fun acc r => if r.id = id then some r else acc) acc
      = (match l.reverse.find? (fun r => r.id = id) with
         | some r => some r
         | none => acc) := by
  induction l generalizing acc with
  | nil => simp
  | cons a l ih =>
    rw [List.foldl_cons, ih, List.reverse_cons, List.find?_append]
    cases hf : l.reverse.find? (fun r => r.id = id) with
    | some x => simp
    | none =>
      by_cases ha : a.id = id <;> simp [List.find?_cons, ha]

/-- The preload mapping read by the proxy's `get` is the last stored
record with the given id. -/
theorem preloadedGet_eq_find? (l : List Record) (id : String) :
    preloadedGet l id = l.reverse.find? (fun r => r.id = id) := by
  rw [preloadedGet, foldl_preload_eq_find?]
  cases l.reverse.find? (fun r => r.id = id) <;> rfl

/-- When the store's ids are unique (the Collection store's key path is
the unique `id`), the snapshot preloaded for `id` is the stored record
with that id when `id` was requested, and nothing otherwise. -/
theorem preloadedGet_preload (rs : List Record)
    (hnodup : (rs.map Record.id).Nodup) (preload : List String)
    (id : String) :
    preloadedGet (inScan (idIndexEntries rs) (jsSortStrings preload)) id
      = if id ∈ preload then rs.find? (fun r => r.id = id) else none := by
  rw [inScan_id_eq_filter, preloadedGet_eq_find?]
  by_cases hid : id ∈ preload
  · rw [if_pos hid]
    have huniq : ∀ x ∈ rs, ∀ y ∈ rs, x.id = y.id → x = y :=
      List.inj_on_of_nodup_map hnodup
    cases hfind : rs.find? (fun r => r.id = id) with
    | none =>
      rw [List.find?_eq_none] at hfind ⊢
      intro x hx hpx
      have hxrs : x ∈ rs := by
        rw [List.mem_reverse, List.mem_filter] at hx
        have := hx.1
        rw [byIdOrder] at this
        exact (List.mem_insertionSort byIdLE).mp this
      exact hfind x hxrs hpx
    | some r₀ =>
      have hr₀ : r₀ ∈ rs := List.mem_of_find?_eq_some hfind
      have hpr₀ : r₀.id = id := by simpa using List.find?_some hfind
      have hsome : (((byIdOrder rs).filter
          (fun r => decide (r.id ∈ preload))).reverse.find?
            (fun r => r.id = id)).isSome := by
        rw [List.find?_isSome]
        refine ⟨r₀, ?_, by simpa using hpr₀⟩
        rw [List.mem_reverse, List.mem_filter]
        constructor
        · rw [byIdOrder]
          exact (List.mem_insertionSort byIdLE).mpr hr₀
        · simp [hpr₀, hid]
      obtain ⟨y, hy⟩ := Option.isSome_iff_exists.mp hsome
      rw [hy]
      have hyfil := List.mem_of_find?_eq_some hy
      have hyrs : y ∈ rs := by
        rw [List.mem_reverse, List.mem_filter] at hyfil
        have := hyfil.1
        rw [byIdOrder] at this
        exact (List.mem_insertionSort byIdLE).mp this
      have hpy : y.id = id := by simpa using List.find?_some hy
      rw [huniq y hyrs r₀ hr₀ (hpy.trans hpr₀.symm)]
  · rw [if_neg hid]
    rw [List.find?_eq_none]
    intro x hx hpx
    rw [List.mem_reverse, List.mem_filter] at hx
    have hxin : x.id ∈ preload := by simpa using hx.2
    have hxid : x.id = id := by simpa using hpx
    exact hid (hxid ▸ hxin)

/-- C5: inside an `execute` batch, the proxy's `get(id)` never performs a
fresh read: after any sequence of writes it returns the preloaded
pre-mutation snapshot for `id` when `id` was in the `preload` option, and
`undefined` for every `id` not in the preload list even if a record with
that id exists in the store.  (The batch throws the observed value so the
theorem can read it off the rejection.) -/
theorem c5_preload_contract (db : DB)
    (hnodup : (db.records.map Record.id).Nodup)
    (preload : List String) (ops : List WriteOp) (id : String) :
    IDB.execute db
        (progOfOps ops (.get id (fun v => .throw (.optRec v)))) preload
      = (db, .rejected (.thrownVal (.optRec
          (if id ∈ preload then IDB.get db id else none)))) := by
  obtain ⟨s₂, f₂, hrun⟩ := runBatch_progOfOps ops
    (.get id (fun v => .throw (.optRec v)))
    (inScan (idIndexEntries db.records) (jsSortStrings preload))
    db.records none
  have hget : runBatch (.get id (fun v => .throw (.optRec v)))
      (inScan (idIndexEntries db.records) (jsSortStrings preload)) s₂ f₂
      = (s₂, f₂, .thrown (.optRec (preloadedGet
          (inScan (idIndexEntries db.records) (jsSortStrings preload))
          id))) := rfl
  simp only [IDB.execute]
  rw [hrun, hget, preloadedGet_preload db.records hnodup]
  rfl

/-- C5 witness: with record `a` stored, preloading `["a"]` and updating
`a` inside the batch still reads the pre-mutation snapshot; with an empty
preload the same `get` sees `undefined` although `a` exists. -/
theorem c5_preload_contract_witness :
    IDB.execute { records := [{ id := "a", title := "x" }] }
        (progOfOps [.update { id := "a", title := "y" }]
          (.get "a" (fun v => .throw (.optRec v)))) ["a"]
      = ({ records := [{ id := "a", title := "x" }] },
         .rejected (.thrownVal
           (.optRec (some { id := "a", title := "x" })))) ∧
    IDB.execute { records := [{ id := "a", title := "x" }] }
        (progOfOps [.update { id := "a", title := "y" }]
          (.get "a" (fun v => .throw (.optRec v)))) []
      = ({ records := [{ id := "a", title := "x" }] },
         .rejected (.thrownVal (.optRec none))) := by
  constructor
  · have h := c5_preload_contract { records := [{ id := "a", title := "x" }] }
      (by decide) ["a"] [.update { id := "a", title := "y" }] "a"
    rw [h]
    decide
  · have h := c5_preload_contract { records := [{ id := "a", title := "x" }] }
      (by decide) [] [.update { id := "a", title := "y" }] "a"
    rw [h]
    decide

/-- `loadDump`'s batch of `update`s never fails a request and returns
`undefined`. -/
theorem runBatch_updateAll (recs : List Record) (pre : List Record) :
    ∀ (s : List Record) (f : Option String),
    ∃ s', runBatch (updateAllProg recs) pre s f = (s', f, .ret .undef) := by
  induction recs with
  | nil => exact fun s f => ⟨s, rfl⟩
  | cons r recs ih =>
    intro s f
    rw [updateAllProg, runBatch]
    exact ih (putRecord s r) f

/-- `execute` on `loadDump`'s update batch always resolves with
`undefined` and only replaces the record list. -/
theorem execute_updateAll (db : DB) (recs : List Record) :
    ∃ s', IDB.execute db (updateAllProg recs) []
      = ({ db with records := s' }, .resolved .undef) := by
  obtain ⟨s', hrun⟩ := runBatch_updateAll recs
    (inScan (idIndexEntries db.records) (jsSortStrings [])) db.records none
  refine ⟨s', ?_⟩
  simp only [IDB.execute]
  rw [hrun]
  rfl

/-- The maximum `last_modified` of a dump is bounded by any bound on its
records. -/
theorem maxLastModified_le (recs : List Record) (b : Int) :
    ∀ m : Int, maxLastModified recs = some m →
    (∀ r ∈ recs, r.last_modified ≤ b) → m ≤ b := by
  induction recs with
  | nil => intro m hmax; simp [maxLastModified] at hmax
  | cons r recs ih =>
    intro m hmax hb
    rw [maxLastModified] at hmax
    cases hrec : maxLastModified recs with
    | none =>
      rw [hrec] at hmax
      cases hmax
      exact hb r (List.mem_cons_self r recs)
    | some m' =>
      rw [hrec] at hmax
      cases hmax
      exact max_le (hb r (List.mem_cons_self r recs))
        (ih m' hrec (fun x hx => hb x (List.mem_cons_of_mem r hx)))

/-- The observable `lastModified` right after `saveLastModified(m)` for
an integer `m` is `m` itself under the `null`-to-`0` coercion. -/
theorem jsNum_after_save (db : DB) (m : Int) :
    jsNum (IDB.getLastModified (IDB.saveLastModified db (.num m)).1) = m := by
  by_cases hm0 : m = 0
  · subst hm0; rfl
  · simp [IDB.saveLastModified, IDB.getLastModified, coerceLastModified,
          parseIntJS, jsNum, hm0]

/-- C3: `loadDump` never decreases the stored `lastModified` (observed
through `getLastModified`, with JavaScript's `null`-to-`0` coercion): it
changes the stored metadata only when the maximum `last_modified` of the
given records is strictly greater than the previously stored value, and
when every loaded record's `last_modified` is at most the stored value
the metadata entry is unchanged. -/
theorem c3_loadDump_monotonic (db : DB) (records : List Record) :
    jsNum (IDB.getLastModified (IDB.loadDump db records).1)
      ≥ jsNum (IDB.getLastModified db) ∧
    ((∀ r ∈ records,
        r.last_modified ≤ jsNum (IDB.getLastModified db)) →
      (IDB.loadDump db records).1.meta = db.meta) ∧
    ((IDB.loadDump db records).1.meta ≠ db.meta →
      ∃ m, maxLastModified records = some m ∧
        m > jsNum (IDB.getLastModified db)) := by
  obtain ⟨s', hex⟩ := execute_updateAll db records
  cases hmax : maxLastModified records with
  | none =>
    have hld : IDB.loadDump db records
        = ({ db with records := s' }, .ok records) := by
      simp only [IDB.loadDump]
      rw [hex]
      dsimp only
      rw [hmax]
    refine ⟨by rw [hld]; exact le_refl _, fun _ => by rw [hld],
      fun hne => absurd (by rw [hld]) hne⟩
  | some m =>
    by_cases hgt : m > jsNum (IDB.getLastModified db)
    · have hld : IDB.loadDump db records
          = ((IDB.saveLastModified { db with records := s' } (.num m)).1,
             .ok records) := by
        simp only [IDB.loadDump]
        rw [hex]
        dsimp only
        rw [hmax]
        dsimp only
        rw [show IDB.getLastModified ({ records := s', meta := db.meta } : DB)
              = IDB.getLastModified db from rfl]
        rw [if_pos hgt]
      refine ⟨?_, fun hall => ?_, fun _ => ⟨m, rfl, hgt⟩⟩
      · rw [hld]
        have hval := jsNum_after_save { db with records := s' } m
        rw [hval]
        exact le_of_lt hgt
      · exact absurd hgt
          (not_lt.mpr (maxLastModified_le records _ m hmax hall))
    · have hld : IDB.loadDump db records
          = ({ db with records := s' }, .ok records) := by
        simp only [IDB.loadDump]
        rw [hex]
        dsimp only
        rw [hmax]
        dsimp only
        rw [show IDB.getLastModified ({ records := s', meta := db.meta } : DB)
              = IDB.getLastModified db from rfl]
        rw [if_neg hgt]
      refine ⟨by rw [hld]; exact le_refl _, fun _ => by rw [hld],
        fun hne => absurd (by rw [hld]) hne⟩

/-- C3 witness: a dump whose records are all at most the stored value 5
leaves the metadata entry unchanged, and the observable value does not
decrease. -/
theorem c3_loadDump_monotonic_witness :
    (IDB.loadDump { records := [], meta := some (some 5) }
        [{ id := "a", last_modified := 3 }]).1.meta = some (some 5) ∧
    jsNum (IDB.getLastModified
        (IDB.loadDump { records := [], meta := some (some 5) }
          [{ id := "a", last_modified := 3 }]).1) ≥ 5 := by
  have h := c3_loadDump_monotonic { records := [], meta := some (some 5) }
    [{ id := "a", last_modified := 3 }]
  exact ⟨h.2.1 (by decide), h.1⟩

/-- C8 counterexample: `saveLastModified` rejects with the raw engine
error: its message keeps only the engine text `"boom"`, without the
operation-name wrapping that `_handleError("saveLastModified")` would
have produced. -/
theorem c8_counterexample_saveLastModified_unwrapped :
    IDB.saveLastModifiedOnError { name := "Error", message := "boom" }
      = { name := "Error", message := "boom" } ∧
    (handleError "saveLastModified"
        { name := "Error", message := "boom" }).message
      ≠ (IDB.saveLastModifiedOnError
          { name := "Error", message := "boom" }).message :=
  ⟨rfl, by decide⟩

/-- C8 (amended): `clear`, `get`, `list` and `loadDump` reject with the
engine's error wrapped with the operation name via `_handleError`;
`open`, `saveLastModified` and `getLastModified` reject with the raw
engine error unchanged, and `execute` re-boxes it without an operation
name; no operation swallows an error — each maps it to a rejection. -/
theorem c8_error_wrapping_per_operation (e : JSErr) :
    (IDB.clearOnError e).message = "clear() " ++ errString e ∧
    (IDB.getOnError e).message = "get() " ++ errString e ∧
    (IDB.listOnError e).message = "list() " ++ errString e ∧
    (IDB.loadDumpOnError e).message = "loadDump() " ++ e.message ∧
    IDB.openOnError e = e ∧
    IDB.saveLastModifiedOnError e = e ∧
    IDB.getLastModifiedOnError e = e ∧
    (IDB.executeOnError e).message = errString e :=
  ⟨rfl, rfl, rfl, rfl, rfl, rfl, rfl, rfl⟩

end Kinto
